import Mathlib

/-!
Ledger core of `main.go` (rinha2024q1-alternative)

A shallow embedding of the two HTTP handlers `getExtrato` and `postTransacao`,
of the store procedures `rx` and `tx` they call, and of the seeding done by
`migrate`.  The SQLite store of one account is a value of type `DB`; a handler
is a function from the five stores and the request to a response, the five
stores afterwards, and the list of store operations it performed.

Go values are modelled as follows.
* `int` is the 64-bit wrap-around integer: an `Int` kept in
  `[minInt, maxInt]` by `wrapInt` after every arithmetic operation.
* `string` is a Lean `String`; `len` is its length in bytes.
* an `error` result is an `Option`, or a fault argument telling which store
  call fails.
-/

namespace Rinha

/-! ## Go `int` -/

/-- Width of the Go type `int` on the 64-bit targets the service is built for. -/
def intSize : Nat := 64

/-- Smallest value of a Go `int`. -/
def minInt : Int := -9223372036854775808

/-- Largest value of a Go `int`. -/
def maxInt : Int := 9223372036854775807

/-- The integer is representable as a Go `int`. -/
def InRange (x : Int) : Prop := minInt ≤ x ∧ x ≤ maxInt

instance (x : Int) : Decidable (InRange x) := by
  unfold InRange; exact inferInstance

/-- Wrap-around of a mathematical integer into the 64-bit Go `int`. -/
def wrapInt (x : Int) : Int :=
  (x + 9223372036854775808) % 18446744073709551616 - 9223372036854775808

/-- Go `a + b` on `int`. -/
def addInt (a b : Int) : Int := wrapInt (a + b)

/-- Go `a - b` on `int`. -/
def subInt (a b : Int) : Int := wrapInt (a - b)

/-- Go unary `-a` on `int`. -/
def negInt (a : Int) : Int := wrapInt (-a)

/-! ## Go `string` and `strconv.Atoi` -/

/-- Go `len(s)`: the number of bytes of the string. -/
def len (s : String) : Nat := s.utf8ByteSize

/-- Value of a non-empty run of ASCII decimal digits, read left to right with
accumulator `acc`; `none` when a character is not a digit. -/
def digitsFrom (acc : Nat) : List Char → Option Nat
  | [] => some acc
  | c :: cs =>
    if 48 ≤ c.toNat ∧ c.toNat ≤ 57 then digitsFrom (acc * 10 + (c.toNat - 48)) cs
    else none

/-- Value of a run of decimal digits; `none` when the run is empty. -/
def digitsValue : List Char → Option Nat
  | [] => none
  | c :: cs => digitsFrom 0 (c :: cs)

/-- The integer a string denotes in decimal: an optional sign `+` or `-`
followed by one or more decimal digits.  There is no bound on the magnitude. -/
def decimalValue (s : String) : Option Int :=
  match s.toList with
  | '+' :: ds => (digitsValue ds).map fun n => (n : Int)
  | '-' :: ds => (digitsValue ds).map fun n => -(n : Int)
  | ds => (digitsValue ds).map fun n => (n : Int)

/-- Go `strconv.Atoi` (standard library): it succeeds exactly on an optional sign
followed by decimal digits whose value fits the type `int`; a malformed string
and a value out of range are both a non-nil `error`, here `none`. -/
def Atoi (s : String) : Option Int :=
  match decimalValue s with
  | some n => if minInt ≤ n ∧ n ≤ maxInt then some n else none
  | none => none

/-! ## The store of one account -/

/-- One row of table `ts (v INT, t VARCHAR(1), d VARCHAR(10), ts TIMESTAMP)`. -/
structure TsRow where
  v : Int
  t : String
  d : String
  ts : String
  deriving DecidableEq

/-- The SQLite database of one account: table `cs (l INT, b INT)` and table `ts`,
both in rowid order (oldest row first). -/
structure DB where
  cs : List (Int × Int)
  ts : List TsRow
  deriving DecidableEq

/-- A database file before `migrate` ran (the data folder is emptied by `main`). -/
def emptyDB : DB := ⟨[], []⟩

/-- An open write transaction of `database/sql`: the committed database and the
working copy the statements of the transaction act on. -/
structure Tx where
  committed : DB
  working : DB

/-- Successful `db.Begin()`. -/
def Begin (db : DB) : Tx := ⟨db, db⟩

/-- Successful `tx.Exec(stmt)`: the statement changes the working copy only. -/
def Tx.Exec (t : Tx) (stmt : DB → DB) : Tx := { t with working := stmt t.working }

/-- The deferred `tx.Rollback()`: the committed database stays as it was. -/
def Tx.Rollback (t : Tx) : DB := t.committed

/-- Successful `tx.Commit()`: the working copy becomes the committed database. -/
def Tx.Commit (t : Tx) : DB := t.working

/-- A store call a handler made, in the order of the calls. -/
inductive StoreOp
  | begin
  | selectSaldo
  | insertTransacao
  | updateSaldo
  | commit
  | rollback
  | selectTransacoes
  deriving DecidableEq

/-! ## Seeding -/

/-- The `switch id` of `migrate`: the limit of shard `id` (`var lim int` is zero
for any other index). -/
def limiteDe (id : Nat) : Int :=
  match id with
  | 0 => 100000
  | 1 => 80000
  | 2 => 1000000
  | 3 => 10000000
  | 4 => 500000
  | _ => 0

/-- Function `migrate` on its path without error: both tables exist afterwards and
`INSERT OR IGNORE INTO cs (l, b) VALUES (lim, 0)` adds one row. -/
def migrate (db : DB) (id : Nat) : DB :=
  { db with cs := db.cs ++ [(limiteDe id, 0)] }

/-- Function `openDBs` on its path without error: the database file of shard `i`
after `migrate` ran on the fresh file. -/
def openDBs (i : Nat) : DB := migrate emptyDB i

/-- The five database files after the loop `for i := range 5` of `main`; the
handles `dbWs[i]` and `dbRs[i]` are opened on the same file. -/
def dbWs : Fin 5 → DB := fun i => openDBs i.val

/-- Five seeded stores with arbitrary limits: balance 0 and an empty log. -/
def seeded (lims : Fin 5 → Int) : Fin 5 → DB := fun k => ⟨[(lims k, 0)], []⟩

/-! ## Responses -/

/-- Type `saldo` of `rx`. -/
structure Saldo where
  Limite : Int
  Total : Int
  DataExtrato : String
  deriving DecidableEq

/-- Type `transacao` of `rx`. -/
structure Transacao where
  Valor : Int
  Tipo : String
  Descricao : String
  RealizadaEm : String
  deriving DecidableEq

/-- What a handler sends back. -/
inductive Response
  /-- Call `c.SendStatus(code)`. -/
  | sendStatus (code : Nat)
  /-- Call `c.Status(200).JSON` of the pair `limite`, `saldo` at the end of `tx`. -/
  | saldoJSON (limite saldo : Int)
  /-- Call `c.Status(200).JSON` of the statement at the end of `rx`. -/
  | extratoJSON (saldo : Saldo) (ultimas : List Transacao)
  /-- A run-time panic (index out of range, nil dereference): no response. -/
  | crash
  deriving DecidableEq

/-- HTTP status of a response (0 when the handler panicked). -/
def Response.code : Response → Nat
  | .sendStatus c => c
  | .saldoJSON _ _ => 200
  | .extratoJSON _ _ => 200
  | .crash => 0

/-- Result of `rx` or `tx` on one store. -/
structure Outcome where
  resp : Response
  db : DB
  ops : List StoreOp

/-- Result of a handler on the five stores. -/
structure HOutcome where
  resp : Response
  dbs : Fin 5 → DB
  ops : List StoreOp

/-- The result of a store procedure run on shard `k`: the other shards are
untouched. -/
def onShard (dbs : Fin 5 → DB) (k : Fin 5) (o : Outcome) : HOutcome :=
  ⟨o.resp, Function.update dbs k o.db, o.ops⟩

/-! ## `tx` -/

/-- Which store call of `tx` returns an error (other than `sql.ErrNoRows`). -/
inductive TxFault
  | none
  | begin
  | read
  | insert
  | update
  | commit
  deriving DecidableEq

/-- Statement `SELECT l, b FROM cs` through `QueryRow(..).Scan`: the first row,
`sql.ErrNoRows` (here `none`) when the table is empty. -/
def pegaSaldoAtualizar (db : DB) : Option (Int × Int) := db.cs.head?

/-- Statement `INSERT INTO ts(v, t, d, ts) VALUES ($1, $2, $3, DATE('now'))`. -/
def insereTransacao (valor : Int) (tipo descricao now : String) (db : DB) : DB :=
  { db with ts := db.ts ++ [⟨valor, tipo, descricao, now⟩] }

/-- Statement `UPDATE cs SET b = $1` (no `WHERE`: every row of `cs`). -/
def atualizaSaldo (saldo : Int) (db : DB) : DB :=
  { db with cs := db.cs.map fun r => (r.1, saldo) }

/-- Function `tx`.  `f` tells which store call fails, `now` is what `DATE('now')`
evaluates to. -/
def tx (f : TxFault) (now : String) (db : DB) (valor : Int) (tipo descricao : String) :
    Outcome :=
  if f = .begin then ⟨.sendStatus 500, db, [.begin]⟩
  else
    let t := Begin db
    if f = .read then ⟨.sendStatus 422, t.Rollback, [.begin, .selectSaldo, .rollback]⟩
    else
      match pegaSaldoAtualizar t.working with
      | none => ⟨.sendStatus 404, t.Rollback, [.begin, .selectSaldo, .rollback]⟩
      | some (limite, saldo0) =>
        let saldo := if tipo = "c" then addInt saldo0 valor else subInt saldo0 valor
        if tipo ≠ "c" ∧ negInt saldo > limite then
          ⟨.sendStatus 422, t.Rollback, [.begin, .selectSaldo, .rollback]⟩
        else if f = .insert then
          ⟨.sendStatus 422, t.Rollback, [.begin, .selectSaldo, .insertTransacao, .rollback]⟩
        else
          let t1 := t.Exec (insereTransacao valor tipo descricao now)
          if f = .update then
            ⟨.sendStatus 422, t1.Rollback,
              [.begin, .selectSaldo, .insertTransacao, .updateSaldo, .rollback]⟩
          else
            let t2 := t1.Exec (atualizaSaldo saldo)
            if f = .commit then
              ⟨.sendStatus 500, t2.Rollback,
                [.begin, .selectSaldo, .insertTransacao, .updateSaldo, .commit, .rollback]⟩
            else
              ⟨.saldoJSON limite saldo, t2.Commit,
                [.begin, .selectSaldo, .insertTransacao, .updateSaldo, .commit]⟩

/-! ## `rx` -/

/-- Which store call of `rx` returns an error. -/
inductive RxFault
  | none
  | querySaldo
  | querySaldoNoRows
  | scanSaldo
  | rowsErrSaldo
  | queryTransacoes
  | queryTransacoesNoRows
  | scanTransacao
  | rowsErrTransacoes
  deriving DecidableEq

/-- Statement `SELECT v, t, d, ts FROM ts ORDER BY rowid DESC LIMIT 10`. -/
def pegaTransacoes (db : DB) : List TsRow := db.ts.reverse.take 10

/-- The record appended to `transactions` for one scanned row: `v`, `t` and `d` are
scanned as stored.  Column `ts` is declared `TIMESTAMP`, so the driver parses the
stored text as a time and `rows.Scan` delivers it into the string formatted with
`time.RFC3339Nano` (the stored date `2026-11-04` arrives as
`2026-11-04T00:00:00Z`); `scanTs` is that conversion of the standard library and
the driver, from the stored text to the scanned string. -/
def toTransacao (scanTs : String → String) (r : TsRow) : Transacao :=
  ⟨r.v, r.t, r.d, scanTs r.ts⟩

/-- The first `for rows.Next()` loop of `rx`: each row of `cs` overwrites
`balanceDetails`, which starts as the zero value. -/
def lerSaldo (now : String) (db : DB) : Saldo :=
  db.cs.foldl (fun _ r => ⟨r.1, r.2, now⟩) ⟨0, 0, ""⟩

/-- Function `rx`.  `f` tells which store call fails, `scanTs` is the conversion
`rows.Scan` applies to the stored text of column `ts`, `now` is the formatted
`time.Now()`. -/
def rx (f : RxFault) (scanTs : String → String) (now : String) (db : DB) : Outcome :=
  if f = .querySaldoNoRows then ⟨.sendStatus 404, db, [.selectSaldo]⟩
  else if f = .querySaldo then ⟨.sendStatus 500, db, [.selectSaldo]⟩
  else if f = .scanSaldo ∧ db.cs ≠ [] then ⟨.sendStatus 500, db, [.selectSaldo]⟩
  else
    let balanceDetails := lerSaldo now db
    if f = .rowsErrSaldo then ⟨.sendStatus 500, db, [.selectSaldo]⟩
    else if f = .queryTransacoes then
      ⟨.sendStatus 500, db, [.selectSaldo, .selectTransacoes]⟩
    else if f = .queryTransacoesNoRows then
      ⟨.crash, db, [.selectSaldo, .selectTransacoes]⟩
    else
      let rows := pegaTransacoes db
      if f = .scanTransacao ∧ rows ≠ [] then
        ⟨.sendStatus 500, db, [.selectSaldo, .selectTransacoes]⟩
      else
        let transactions := rows.map (toTransacao scanTs)
        if f = .rowsErrTransacoes then
          ⟨.sendStatus 500, db, [.selectSaldo, .selectTransacoes]⟩
        else
          ⟨.extratoJSON balanceDetails transactions, db, [.selectSaldo, .selectTransacoes]⟩

/-! ## The handlers -/

/-- Type `reqTransacao`: the decoded request body. -/
structure reqTransacao where
  Valor : Int
  Tipo : String
  Descricao : String
  deriving DecidableEq

/-- Indexing `dbs[j]` of a `[5]*sql.DB`: the index when in bounds, `none` when
the access panics. -/
def goIndex (j : Int) : Option (Fin 5) :=
  if h : 0 ≤ j ∧ j < 5 then some ⟨j.toNat, by omega⟩ else none

/-- Handler `getExtrato`; `id` is `c.Params("id")`, the other arguments are those
of `rx`. -/
def getExtrato (dbs : Fin 5 → DB) (f : RxFault) (scanTs : String → String) (now : String)
    (id : String) : HOutcome :=
  match Atoi id with
  | none => ⟨.sendStatus 422, dbs, []⟩
  | some i =>
    if i < 1 ∨ i > 5 then ⟨.sendStatus 404, dbs, []⟩
    else
      match goIndex (subInt i 1) with
      | none => ⟨.crash, dbs, []⟩
      | some k => onShard dbs k (rx f scanTs now (dbs k))

/-- Handler `postTransacao`; `id` is `c.Params("id")`, `body` is the result of
`c.BodyParser` (`none` when it returns an error). -/
def postTransacao (dbs : Fin 5 → DB) (f : TxFault) (now : String) (id : String)
    (body : Option reqTransacao) : HOutcome :=
  match Atoi id with
  | none => ⟨.sendStatus 422, dbs, []⟩
  | some i =>
    if i < 1 ∨ i > 5 then ⟨.sendStatus 404, dbs, []⟩
    else
      match body with
      | none => ⟨.sendStatus 422, dbs, []⟩
      | some transacao =>
        let tam := len transacao.Descricao
        if transacao.Valor = 0 ∨ (transacao.Tipo ≠ "c" ∧ transacao.Tipo ≠ "d")
            ∨ tam = 0 ∨ tam > 10 then
          ⟨.sendStatus 422, dbs, []⟩
        else
          match goIndex (subInt i 1) with
          | none => ⟨.crash, dbs, []⟩
          | some k =>
            onShard dbs k
              (tx f now (dbs k) transacao.Valor transacao.Tipo transacao.Descricao)

/-! ## Sequences of record-transaction requests -/

/-- One record-transaction request together with what its environment does: the
store call that fails (if any) and the value of `DATE('now')`. -/
structure Request where
  id : String
  body : Option reqTransacao
  fault : TxFault
  now : String

/-- The five stores after one request. -/
def step (dbs : Fin 5 → DB) (r : Request) : Fin 5 → DB :=
  (postTransacao dbs r.fault r.now r.id r.body).dbs

/-- The five stores after a sequence of requests, served one after the other. -/
def run (dbs : Fin 5 → DB) (reqs : List Request) : Fin 5 → DB :=
  reqs.foldl step dbs

/-- Signed value of a log record: `+v` for type `"c"`, `-v` for type `"d"`. -/
def signedValue (r : TsRow) : Int :=
  if r.t = "c" then r.v else if r.t = "d" then -r.v else 0

/-- Sum of the signed values of a log, in commit order. -/
def logSum (log : List TsRow) : Int := (log.map signedValue).sum

/-- The value a request asks to record (0 when its body does not decode). -/
def requestValue (r : Request) : Int :=
  match r.body with
  | some b => b.Valor
  | none => 0

/-- Total of the values of a sequence of requests. -/
def totalValue (reqs : List Request) : Int := (reqs.map requestValue).sum

/-- No arithmetic operation of `tx` overflows on balance `b`, value `v` and type
`t`: the addition for a credit; the subtraction and the negation `-saldo` of the
limit check for a debit. -/
def NoOverflow (b v : Int) (t : String) : Prop :=
  if t = "c" then InRange (b + v) else InRange (b - v) ∧ InRange (-(b - v))

instance (b v : Int) (t : String) : Decidable (NoOverflow b v t) := by
  unfold NoOverflow; exact inferInstance

/-! ## Arithmetic of Go `int` -/

theorem wrapInt_of_inRange (x : Int) (h : InRange x) : wrapInt x = x := by
  unfold InRange minInt maxInt at h
  unfold wrapInt
  omega

theorem inRange_wrapInt (x : Int) : InRange (wrapInt x) := by
  unfold InRange minInt maxInt wrapInt
  omega

theorem wrapInt_add_left (a b : Int) : wrapInt (wrapInt a + b) = wrapInt (a + b) := by
  unfold wrapInt
  omega

theorem wrapInt_sub_left (a b : Int) : wrapInt (wrapInt a - b) = wrapInt (a - b) := by
  unfold wrapInt
  omega

/-! ## The router -/

theorem goIndex_sub_one (i : Int) (h1 : 1 ≤ i) (h5 : i ≤ 5) :
    ∃ k : Fin 5, goIndex (subInt i 1) = some k ∧ (k.val : Int) = i - 1 := by
  have hw : subInt i 1 = i - 1 := by
    unfold subInt wrapInt
    omega
  have hb : 0 ≤ i - 1 ∧ i - 1 < 5 := by omega
  refine ⟨⟨(i - 1).toNat, by omega⟩, ?_, ?_⟩
  · unfold goIndex
    simp only [hw, dif_pos hb]
  · simp only
    omega

theorem Atoi_eq_none_of_decimalValue_none (s : String) (h : decimalValue s = none) :
    Atoi s = none := by
  unfold Atoi
  rw [h]

theorem Atoi_eq_none_of_not_inRange (s : String) (n : Int) (h : decimalValue s = some n)
    (hn : ¬ InRange n) : Atoi s = none := by
  unfold Atoi
  rw [h]
  unfold InRange at hn
  simp only [if_neg hn]

theorem Atoi_eq_some_of_inRange (s : String) (n : Int) (h : decimalValue s = some n)
    (hn : InRange n) : Atoi s = some n := by
  unfold Atoi
  rw [h]
  unfold InRange at hn
  simp only [if_pos hn]

/-! ## `tx` step by step -/

theorem tx_ops_ne_nil (f : TxFault) (now : String) (db : DB) (v : Int) (t d : String) :
    (tx f now db v t d).ops ≠ [] := by
  obtain ⟨cs, ts⟩ := db
  cases cs with
  | nil =>
    simp only [tx, pegaSaldoAtualizar, Begin, List.head?_nil]
    split_ifs <;> simp
  | cons p rest =>
    obtain ⟨l, b⟩ := p
    simp only [tx, pegaSaldoAtualizar, Begin, List.head?_cons]
    split_ifs <;> simp

theorem tx_db_of_not_ok (f : TxFault) (now : String) (db : DB) (v : Int) (t d : String)
    (h : (tx f now db v t d).resp.code ≠ 200) : (tx f now db v t d).db = db := by
  revert h
  obtain ⟨cs, ts⟩ := db
  cases cs with
  | nil =>
    simp only [tx, pegaSaldoAtualizar, Begin, List.head?_nil]
    split_ifs <;> simp [Tx.Rollback]
  | cons p rest =>
    obtain ⟨l, b⟩ := p
    simp only [tx, pegaSaldoAtualizar, Begin, List.head?_cons]
    split_ifs <;> simp [Tx.Rollback, Tx.Exec, Response.code]

/-- Function `tx` on a store with one account row: either the response is not 200
and the store is unchanged, or the response carries the limit and the candidate
balance, the row holds the candidate, one record was appended, and a debit
passed the limit check. -/
theorem tx_single (f : TxFault) (now : String) (l b : Int) (log : List TsRow) (v : Int)
    (t d : String) :
    ((tx f now ⟨[(l, b)], log⟩ v t d).resp.code ≠ 200 ∧
      (tx f now ⟨[(l, b)], log⟩ v t d).db = ⟨[(l, b)], log⟩) ∨
    (f = .none ∧
      (tx f now ⟨[(l, b)], log⟩ v t d).resp
        = .saldoJSON l (if t = "c" then addInt b v else subInt b v) ∧
      (tx f now ⟨[(l, b)], log⟩ v t d).db
        = ⟨[(l, if t = "c" then addInt b v else subInt b v)], log ++ [⟨v, t, d, now⟩]⟩ ∧
      (t ≠ "c" → negInt (subInt b v) ≤ l)) := by
  simp only [tx, pegaSaldoAtualizar, Begin, List.head?_cons]
  cases f <;> by_cases ht : t = "c" <;>
    simp [ht, Tx.Rollback, Tx.Exec, Tx.Commit, Response.code, insereTransacao,
      atualizaSaldo]
  all_goals
    by_cases hc : l < negInt (subInt b v) <;> simp [hc, Response.code]
  all_goals omega

/-- Function `tx` without storage error on a credit: never rejected. -/
theorem tx_credit (now : String) (l b : Int) (log : List TsRow) (v : Int) (d : String) :
    tx .none now ⟨[(l, b)], log⟩ v "c" d
      = ⟨.saldoJSON l (addInt b v), ⟨[(l, addInt b v)], log ++ [⟨v, "c", d, now⟩]⟩,
          [.begin, .selectSaldo, .insertTransacao, .updateSaldo, .commit]⟩ := by
  simp [tx, pegaSaldoAtualizar, Begin, Tx.Exec, Tx.Commit, insereTransacao, atualizaSaldo]

/-- Function `tx` without storage error on a debit that passes the limit check. -/
theorem tx_debit_ok (now : String) (l b : Int) (log : List TsRow) (v : Int) (d : String)
    (h : negInt (subInt b v) ≤ l) :
    tx .none now ⟨[(l, b)], log⟩ v "d" d
      = ⟨.saldoJSON l (subInt b v), ⟨[(l, subInt b v)], log ++ [⟨v, "d", d, now⟩]⟩,
          [.begin, .selectSaldo, .insertTransacao, .updateSaldo, .commit]⟩ := by
  have hn : ¬ l < negInt (subInt b v) := by omega
  simp [tx, pegaSaldoAtualizar, Begin, Tx.Exec, Tx.Commit, insereTransacao, atualizaSaldo,
    hn]

/-- Function `tx` without storage error on a debit that fails the limit check. -/
theorem tx_debit_rejected (now : String) (l b : Int) (log : List TsRow) (v : Int)
    (d : String) (h : l < negInt (subInt b v)) :
    tx .none now ⟨[(l, b)], log⟩ v "d" d
      = ⟨.sendStatus 422, ⟨[(l, b)], log⟩, [.begin, .selectSaldo, .rollback]⟩ := by
  simp [tx, pegaSaldoAtualizar, Begin, Tx.Rollback, h]

/-- When no operation of `tx` overflows, `tx` keeps `-l ≤ balance` on a store
with one account row. -/
theorem tx_keeps_limit (f : TxFault) (now : String) (l b : Int) (log : List TsRow)
    (v : Int) (t d : String) (hinv : -l ≤ b) (hpos : 0 < v) (hno : NoOverflow b v t) :
    ∃ b1, (tx f now ⟨[(l, b)], log⟩ v t d).db.cs = [(l, b1)] ∧ -l ≤ b1 ∧ b1 ≤ b + v := by
  rcases tx_single f now l b log v t d with ⟨_, hdb⟩ | ⟨_, _, hdb, hchk⟩
  · exact ⟨b, by rw [hdb], hinv, by omega⟩
  · rw [hdb]
    by_cases htc : t = "c"
    · refine ⟨addInt b v, by simp [htc], ?_⟩
      unfold NoOverflow at hno
      rw [if_pos htc] at hno
      unfold addInt
      rw [wrapInt_of_inRange _ hno]
      omega
    · refine ⟨subInt b v, by simp [htc], ?_⟩
      unfold NoOverflow at hno
      rw [if_neg htc] at hno
      have hc := hchk htc
      unfold negInt at hc
      unfold subInt at hc ⊢
      rw [wrapInt_of_inRange _ hno.1] at hc ⊢
      rw [wrapInt_of_inRange _ hno.2] at hc
      omega

/-- Function `tx` keeps the balance equal to the wrapped sum of the signed
values of the log. -/
theorem tx_keeps_sum (f : TxFault) (now : String) (l b : Int) (log : List TsRow)
    (v : Int) (t d : String) (ht : t = "c" ∨ t = "d") (hb : b = wrapInt (logSum log)) :
    ∃ b1, (tx f now ⟨[(l, b)], log⟩ v t d).db.cs = [(l, b1)] ∧
      b1 = wrapInt (logSum (tx f now ⟨[(l, b)], log⟩ v t d).db.ts) := by
  rcases tx_single f now l b log v t d with ⟨_, hdb⟩ | ⟨_, _, hdb, _⟩
  · exact ⟨b, by rw [hdb], by rw [hdb]; exact hb⟩
  · rw [hdb]
    rcases ht with ht | ht
    · subst ht
      refine ⟨addInt b v, by simp, ?_⟩
      simp only [logSum, List.map_append, List.sum_append, List.map_cons, List.map_nil,
        List.sum_cons, List.sum_nil, signedValue, if_true, add_zero]
      unfold addInt
      rw [hb]
      exact wrapInt_add_left _ _
    · subst ht
      have hdc : ¬ ("d" = "c") := by decide
      refine ⟨subInt b v, by simp [hdc], ?_⟩
      simp only [logSum, List.map_append, List.sum_append, List.map_cons, List.map_nil,
        List.sum_cons, List.sum_nil, signedValue, if_neg hdc, if_true, add_zero]
      unfold subInt
      rw [hb, wrapInt_sub_left]
      rfl

/-! ## The handlers -/

theorem getExtrato_of_Atoi_none (dbs : Fin 5 → DB) (f : RxFault)
    (scanTs : String → String) (now id : String) (h : Atoi id = none) :
    getExtrato dbs f scanTs now id = ⟨.sendStatus 422, dbs, []⟩ := by
  unfold getExtrato
  rw [h]

theorem postTransacao_of_Atoi_none (dbs : Fin 5 → DB) (f : TxFault) (now id : String)
    (body : Option reqTransacao) (h : Atoi id = none) :
    postTransacao dbs f now id body = ⟨.sendStatus 422, dbs, []⟩ := by
  unfold postTransacao
  rw [h]

theorem getExtrato_of_out_of_range (dbs : Fin 5 → DB) (f : RxFault)
    (scanTs : String → String) (now id : String)
    (i : Int) (h : Atoi id = some i) (hi : i < 1 ∨ i > 5) :
    getExtrato dbs f scanTs now id = ⟨.sendStatus 404, dbs, []⟩ := by
  unfold getExtrato
  rw [h]
  simp only [if_pos hi]

theorem postTransacao_of_out_of_range (dbs : Fin 5 → DB) (f : TxFault) (now id : String)
    (body : Option reqTransacao) (i : Int) (h : Atoi id = some i) (hi : i < 1 ∨ i > 5) :
    postTransacao dbs f now id body = ⟨.sendStatus 404, dbs, []⟩ := by
  unfold postTransacao
  rw [h]
  simp only [if_pos hi]

theorem getExtrato_of_shard (dbs : Fin 5 → DB) (f : RxFault)
    (scanTs : String → String) (now id : String)
    (i : Int) (k : Fin 5) (h : Atoi id = some i) (h1 : 1 ≤ i) (h5 : i ≤ 5)
    (hk : goIndex (subInt i 1) = some k) :
    getExtrato dbs f scanTs now id = onShard dbs k (rx f scanTs now (dbs k)) := by
  have hi : ¬ (i < 1 ∨ i > 5) := by omega
  unfold getExtrato
  rw [h]
  simp only [if_neg hi, hk]

theorem postTransacao_of_body_none (dbs : Fin 5 → DB) (f : TxFault) (now id : String)
    (i : Int) (h : Atoi id = some i) (h1 : 1 ≤ i) (h5 : i ≤ 5) :
    postTransacao dbs f now id none = ⟨.sendStatus 422, dbs, []⟩ := by
  have hi : ¬ (i < 1 ∨ i > 5) := by omega
  unfold postTransacao
  rw [h]
  simp only [if_neg hi]

theorem postTransacao_of_invalid (dbs : Fin 5 → DB) (f : TxFault) (now id : String)
    (i : Int) (b : reqTransacao) (h : Atoi id = some i) (h1 : 1 ≤ i) (h5 : i ≤ 5)
    (hb : b.Valor = 0 ∨ (b.Tipo ≠ "c" ∧ b.Tipo ≠ "d") ∨ len b.Descricao = 0
      ∨ len b.Descricao > 10) :
    postTransacao dbs f now id (some b) = ⟨.sendStatus 422, dbs, []⟩ := by
  have hi : ¬ (i < 1 ∨ i > 5) := by omega
  unfold postTransacao
  rw [h]
  simp only [if_neg hi, if_pos hb]

theorem postTransacao_of_valid (dbs : Fin 5 → DB) (f : TxFault) (now id : String)
    (i : Int) (k : Fin 5) (b : reqTransacao) (h : Atoi id = some i) (h1 : 1 ≤ i)
    (h5 : i ≤ 5) (hk : goIndex (subInt i 1) = some k)
    (hb : ¬ (b.Valor = 0 ∨ (b.Tipo ≠ "c" ∧ b.Tipo ≠ "d") ∨ len b.Descricao = 0
      ∨ len b.Descricao > 10)) :
    postTransacao dbs f now id (some b)
      = onShard dbs k (tx f now (dbs k) b.Valor b.Tipo b.Descricao) := by
  have hi : ¬ (i < 1 ∨ i > 5) := by omega
  unfold postTransacao
  rw [h]
  simp only [if_neg hi, if_neg hb, hk]

/-- Every outcome of `postTransacao` is either a rejection that touched nothing or
the outcome of `tx` on one shard, called with a body that passed validation. -/
theorem postTransacao_cases (dbs : Fin 5 → DB) (f : TxFault) (now id : String)
    (body : Option reqTransacao) :
    (∃ c, postTransacao dbs f now id body = ⟨.sendStatus c, dbs, []⟩ ∧ c ≠ 200) ∨
    (∃ (k : Fin 5) (b : reqTransacao), body = some b ∧ b.Valor ≠ 0 ∧
      (b.Tipo = "c" ∨ b.Tipo = "d") ∧
      postTransacao dbs f now id body
        = onShard dbs k (tx f now (dbs k) b.Valor b.Tipo b.Descricao)) := by
  cases hA : Atoi id with
  | none => exact Or.inl ⟨422, postTransacao_of_Atoi_none dbs f now id body hA, by decide⟩
  | some i =>
    by_cases hi : i < 1 ∨ i > 5
    · exact Or.inl ⟨404, postTransacao_of_out_of_range dbs f now id body i hA hi, by decide⟩
    · have h1 : 1 ≤ i := by omega
      have h5 : i ≤ 5 := by omega
      cases body with
      | none => exact Or.inl ⟨422, postTransacao_of_body_none dbs f now id i hA h1 h5, by decide⟩
      | some b =>
        by_cases hb : b.Valor = 0 ∨ (b.Tipo ≠ "c" ∧ b.Tipo ≠ "d") ∨ len b.Descricao = 0
            ∨ len b.Descricao > 10
        · exact Or.inl ⟨422, postTransacao_of_invalid dbs f now id i b hA h1 h5 hb, by decide⟩
        · obtain ⟨k, hk, _⟩ := goIndex_sub_one i h1 h5
          refine Or.inr ⟨k, b, rfl, ?_, ?_,
            postTransacao_of_valid dbs f now id i k b hA h1 h5 hk hb⟩
          · intro h0; exact hb (Or.inl h0)
          · by_contra hn
            push_neg at hn
            exact hb (Or.inr (Or.inl hn))

/-! ## Sequences of requests -/

/-- One request either leaves the five stores as they are or replaces one of them
by the store `tx` returns, on a body that passed validation. -/
theorem step_cases (dbs : Fin 5 → DB) (r : Request) :
    step dbs r = dbs ∨
    ∃ (k : Fin 5) (b : reqTransacao), r.body = some b ∧ b.Valor ≠ 0 ∧
      (b.Tipo = "c" ∨ b.Tipo = "d") ∧
      step dbs r
        = Function.update dbs k (tx r.fault r.now (dbs k) b.Valor b.Tipo b.Descricao).db := by
  unfold step
  rcases postTransacao_cases dbs r.fault r.now r.id r.body with
    ⟨c, hc, _⟩ | ⟨k, b, hb, hv, ht, hk⟩
  · left
    rw [hc]
  · right
    refine ⟨k, b, hb, hv, ht, ?_⟩
    rw [hk]
    rfl

/-- The seeding of `main` gives seeded stores with the limits of `migrate`. -/
theorem dbWs_eq_seeded : dbWs = seeded (fun k => limiteDe k.val) := rfl

theorem run_cons (dbs : Fin 5 → DB) (r : Request) (rs : List Request) :
    run dbs (r :: rs) = run (step dbs r) rs := rfl

theorem totalValue_cons (r : Request) (rs : List Request) :
    totalValue (r :: rs) = requestValue r + totalValue rs := by
  simp [totalValue]

/-- The balance of every account equals the wrapped sum of its log after every
sequence of requests, when it does so before. -/
theorem run_keeps_sum (lims : Fin 5 → Int) (reqs : List Request) :
    ∀ dbs : Fin 5 → DB,
      (∀ k, ∃ b, (dbs k).cs = [(lims k, b)] ∧ b = wrapInt (logSum (dbs k).ts)) →
      ∀ k, ∃ b, (run dbs reqs k).cs = [(lims k, b)] ∧
        b = wrapInt (logSum (run dbs reqs k).ts) := by
  induction reqs with
  | nil => intro dbs h k; exact h k
  | cons r rs ih =>
    intro dbs h
    rw [run_cons]
    apply ih
    intro k
    rcases step_cases dbs r with hs | ⟨k0, b, _, _, ht, hs⟩
    · rw [hs]; exact h k
    · rw [hs]
      by_cases hk : k = k0
      · subst hk
        rw [Function.update_same]
        obtain ⟨b0, hcs, hb0⟩ := h k
        have hdb : dbs k = ⟨[(lims k, b0)], (dbs k).ts⟩ := by
          rw [← hcs]
        rw [hdb]
        exact tx_keeps_sum r.fault r.now (lims k) b0 (dbs k).ts b.Valor b.Tipo
          b.Descricao ht hb0
      · rw [Function.update_noteq hk]
        exact h k

/-- The limit invariant along a sequence of requests with positive values whose
total, added to the limit and to a bound `B` of the balances, fits an `int`. -/
theorem run_keeps_limit (lims : Fin 5 → Int) (hl : ∀ k, 0 ≤ lims k)
    (reqs : List Request) :
    ∀ (dbs : Fin 5 → DB) (B : Int), 0 ≤ B →
      (∀ r ∈ reqs, ∀ b, r.body = some b → 0 < b.Valor) →
      (∀ k, lims k + B + totalValue reqs ≤ maxInt) →
      (∀ k, ∃ b, (dbs k).cs = [(lims k, b)] ∧ -lims k ≤ b ∧ b ≤ B) →
      ∀ k, ∃ b, (run dbs reqs k).cs = [(lims k, b)] ∧ -lims k ≤ b ∧
        b ≤ B + totalValue reqs := by
  induction reqs with
  | nil =>
    intro dbs B _ _ _ h k
    obtain ⟨b, h1, h2, h3⟩ := h k
    exact ⟨b, h1, h2, by simp [totalValue]; exact h3⟩
  | cons r rs ih =>
    intro dbs B hB hpos hsum h
    rw [run_cons]
    have hposr : ∀ b, r.body = some b → 0 < b.Valor :=
      fun b hb => hpos r (List.mem_cons_self r rs) b hb
    have hrv : 0 ≤ requestValue r := by
      unfold requestValue
      cases hb : r.body with
      | none => simp
      | some b => exact le_of_lt (hposr b hb)
    have key := ih (step dbs r) (B + requestValue r) (by omega)
      (fun r1 hr1 => hpos r1 (List.mem_cons_of_mem r hr1))
      (fun k => by have := hsum k; rw [totalValue_cons] at this; omega)
    have hstep : ∀ k, ∃ b, (step dbs r k).cs = [(lims k, b)] ∧ -lims k ≤ b ∧
        b ≤ B + requestValue r := by
      intro k
      rcases step_cases dbs r with hs | ⟨k0, b, hbody, _, ht, hs⟩
      · rw [hs]
        obtain ⟨b0, h1, h2, h3⟩ := h k
        exact ⟨b0, h1, h2, by omega⟩
      · rw [hs]
        by_cases hk : k = k0
        · subst hk
          rw [Function.update_same]
          obtain ⟨b0, hcs, h2, h3⟩ := h k
          have hdb : dbs k = ⟨[(lims k, b0)], (dbs k).ts⟩ := by
            rw [← hcs]
          have hv : 0 < b.Valor := hposr b hbody
          have hrq : requestValue r = b.Valor := by
            unfold requestValue; rw [hbody]
          have hs2 := hsum k
          rw [totalValue_cons, hrq] at hs2
          have htot : 0 ≤ totalValue rs := by
            unfold totalValue
            apply List.sum_nonneg
            intro x hx
            obtain ⟨r1, hr1, rfl⟩ := List.mem_map.mp hx
            unfold requestValue
            cases hb1 : r1.body with
            | none => simp
            | some b1 => exact le_of_lt (hpos r1 (List.mem_cons_of_mem r hr1) b1 hb1)
          have hl0 := hl k
          have hno : NoOverflow b0 b.Valor b.Tipo := by
            unfold NoOverflow InRange minInt maxInt
            unfold maxInt at hs2
            split_ifs <;> omega
          rw [hdb]
          obtain ⟨b1, e1, e2, e3⟩ := tx_keeps_limit r.fault r.now (lims k) b0 (dbs k).ts
            b.Valor b.Tipo b.Descricao h2 hv hno
          exact ⟨b1, e1, e2, by omega⟩
        · rw [Function.update_noteq hk]
          obtain ⟨b0, h1, h2, h3⟩ := h k
          exact ⟨b0, h1, h2, by omega⟩
    intro k
    obtain ⟨b, e1, e2, e3⟩ := key hstep k
    exact ⟨b, e1, e2, by rw [totalValue_cons]; omega⟩

/-! ## Claims about routing, validation and atomicity -/

/-- C2, counterexample: the identifier `9223372036854775808` denotes an integer
outside `[1,5]`, yet both handlers answer 422 (invalid input), not 404. -/
theorem router_large_id_is_422 :
    decimalValue "9223372036854775808" = some 9223372036854775808 ∧
    ¬ ((1 : Int) ≤ 9223372036854775808 ∧ (9223372036854775808 : Int) ≤ 5) ∧
    (getExtrato dbWs .none (fun s => s ++ "T00:00:00Z") "" "9223372036854775808").resp = .sendStatus 422 ∧
    (postTransacao dbWs .none "" "9223372036854775808"
      (some ⟨1, "c", "x"⟩)).resp = .sendStatus 422 := by
  decide

/-- C2, amended: for every identifier string, in `getExtrato` and in
`postTransacao`: when the string is not a decimal integer, or is one whose value
does not fit the 64-bit `int`, the request fails with status 422; when it is an
`int` outside `[1,5]` the request fails with status 404; otherwise the index
`id - 1` is in bounds of the five stores (no panic) and the handler proceeds on
that shard: `getExtrato` calls `rx` on it, `postTransacao` calls `tx` on it once
the body passed validation. -/
theorem router_resolves_shard (dbs : Fin 5 → DB) (rf : RxFault) (tf : TxFault)
    (scanTs : String → String) (now id : String) (body : Option reqTransacao) :
    (decimalValue id = none →
      getExtrato dbs rf scanTs now id = ⟨.sendStatus 422, dbs, []⟩ ∧
      postTransacao dbs tf now id body = ⟨.sendStatus 422, dbs, []⟩) ∧
    (∀ n, decimalValue id = some n → ¬ InRange n →
      getExtrato dbs rf scanTs now id = ⟨.sendStatus 422, dbs, []⟩ ∧
      postTransacao dbs tf now id body = ⟨.sendStatus 422, dbs, []⟩) ∧
    (∀ n, decimalValue id = some n → InRange n → (n < 1 ∨ 5 < n) →
      getExtrato dbs rf scanTs now id = ⟨.sendStatus 404, dbs, []⟩ ∧
      postTransacao dbs tf now id body = ⟨.sendStatus 404, dbs, []⟩) ∧
    (∀ n, decimalValue id = some n → 1 ≤ n → n ≤ 5 →
      ∃ k : Fin 5, goIndex (subInt n 1) = some k ∧ (k.val : Int) = n - 1 ∧
        getExtrato dbs rf scanTs now id = onShard dbs k (rx rf scanTs now (dbs k)) ∧
        ∀ b, body = some b →
          ¬ (b.Valor = 0 ∨ (b.Tipo ≠ "c" ∧ b.Tipo ≠ "d") ∨ len b.Descricao = 0
            ∨ len b.Descricao > 10) →
          postTransacao dbs tf now id body
            = onShard dbs k (tx tf now (dbs k) b.Valor b.Tipo b.Descricao)) := by
  refine ⟨?_, ?_, ?_, ?_⟩
  · intro h
    have hA := Atoi_eq_none_of_decimalValue_none id h
    exact ⟨getExtrato_of_Atoi_none dbs rf scanTs now id hA,
      postTransacao_of_Atoi_none dbs tf now id body hA⟩
  · intro n h hn
    have hA := Atoi_eq_none_of_not_inRange id n h hn
    exact ⟨getExtrato_of_Atoi_none dbs rf scanTs now id hA,
      postTransacao_of_Atoi_none dbs tf now id body hA⟩
  · intro n h hn ho
    have hA := Atoi_eq_some_of_inRange id n h hn
    have ho2 : n < 1 ∨ n > 5 := by omega
    exact ⟨getExtrato_of_out_of_range dbs rf scanTs now id n hA ho2,
      postTransacao_of_out_of_range dbs tf now id body n hA ho2⟩
  · intro n h h1 h5
    have hn : InRange n := by
      unfold InRange minInt maxInt
      omega
    have hA := Atoi_eq_some_of_inRange id n h hn
    obtain ⟨k, hk, hkv⟩ := goIndex_sub_one n h1 h5
    refine ⟨k, hk, hkv, getExtrato_of_shard dbs rf scanTs now id n k hA h1 h5 hk, ?_⟩
    intro b hb hv
    subst hb
    exact postTransacao_of_valid dbs tf now id n k b hA h1 h5 hk hv

/-- C2, witness: identifier `abc` gives 422, identifier `6` gives 404 and
identifier `3` is served by the third store (index 2), on the seeded stores. -/
theorem router_resolves_shard_witness :
    (getExtrato dbWs .none (fun s => s ++ "T00:00:00Z") "t" "abc" = ⟨.sendStatus 422, dbWs, []⟩ ∧
      postTransacao dbWs .none "t" "abc" (some ⟨7, "c", "dep"⟩)
        = ⟨.sendStatus 422, dbWs, []⟩) ∧
    (getExtrato dbWs .none (fun s => s ++ "T00:00:00Z") "t" "6" = ⟨.sendStatus 404, dbWs, []⟩ ∧
      postTransacao dbWs .none "t" "6" (some ⟨7, "c", "dep"⟩)
        = ⟨.sendStatus 404, dbWs, []⟩) ∧
    (∃ k : Fin 5, goIndex (subInt 3 1) = some k ∧ (k.val : Int) = 3 - 1 ∧
      getExtrato dbWs .none (fun s => s ++ "T00:00:00Z") "t" "3" = onShard dbWs k (rx .none (fun s => s ++ "T00:00:00Z") "t" (dbWs k)) ∧
      ∀ b, some (⟨7, "c", "dep"⟩ : reqTransacao) = some b →
        ¬ (b.Valor = 0 ∨ (b.Tipo ≠ "c" ∧ b.Tipo ≠ "d") ∨ len b.Descricao = 0
          ∨ len b.Descricao > 10) →
        postTransacao dbWs .none "t" "3" (some ⟨7, "c", "dep"⟩)
          = onShard dbWs k (tx .none "t" (dbWs k) b.Valor b.Tipo b.Descricao)) :=
  ⟨(router_resolves_shard dbWs .none .none (fun s => s ++ "T00:00:00Z") "t" "abc" (some ⟨7, "c", "dep"⟩)).1
      (by decide),
   (router_resolves_shard dbWs .none .none (fun s => s ++ "T00:00:00Z") "t" "6" (some ⟨7, "c", "dep"⟩)).2.2.1 6
      (by decide) (by decide) (by decide),
   (router_resolves_shard dbWs .none .none (fun s => s ++ "T00:00:00Z") "t" "3" (some ⟨7, "c", "dep"⟩)).2.2.2 3
      (by decide) (by decide) (by decide)⟩

/-- C3: for an account id in `[1,5]` and every decoded body `(v, t, d)`,
`postTransacao` answers 422 without any store call exactly when `v = 0`, or `t`
is neither `"c"` nor `"d"`, or `len d` is 0 or above 10; the stores are then
unchanged; in every other case its outcome is that of `tx` called on the shard
`id - 1` with exactly `v`, `t` and `d`. -/
theorem postTransacao_validation (dbs : Fin 5 → DB) (f : TxFault) (now id : String)
    (i : Int) (v : Int) (t d : String)
    (hid : Atoi id = some i) (h1 : 1 ≤ i) (h5 : i ≤ 5) :
    (((postTransacao dbs f now id (some ⟨v, t, d⟩)).resp = .sendStatus 422 ∧
        (postTransacao dbs f now id (some ⟨v, t, d⟩)).ops = []) ↔
      (v = 0 ∨ (t ≠ "c" ∧ t ≠ "d") ∨ len d = 0 ∨ len d > 10)) ∧
    ((v = 0 ∨ (t ≠ "c" ∧ t ≠ "d") ∨ len d = 0 ∨ len d > 10) →
      (postTransacao dbs f now id (some ⟨v, t, d⟩)).dbs = dbs) ∧
    (¬ (v = 0 ∨ (t ≠ "c" ∧ t ≠ "d") ∨ len d = 0 ∨ len d > 10) →
      ∃ k : Fin 5, (k.val : Int) = i - 1 ∧
        postTransacao dbs f now id (some ⟨v, t, d⟩)
          = onShard dbs k (tx f now (dbs k) v t d)) := by
  obtain ⟨k, hk, hkv⟩ := goIndex_sub_one i h1 h5
  refine ⟨⟨?_, ?_⟩, ?_, ?_⟩
  · rintro ⟨_, hops⟩
    by_contra hb
    have hv := postTransacao_of_valid dbs f now id i k ⟨v, t, d⟩ hid h1 h5 hk hb
    rw [hv] at hops
    exact tx_ops_ne_nil f now (dbs k) v t d hops
  · intro hb
    have hv := postTransacao_of_invalid dbs f now id i ⟨v, t, d⟩ hid h1 h5 hb
    rw [hv]
    exact ⟨rfl, rfl⟩
  · intro hb
    have hv := postTransacao_of_invalid dbs f now id i ⟨v, t, d⟩ hid h1 h5 hb
    rw [hv]
  · intro hb
    exact ⟨k, hkv, postTransacao_of_valid dbs f now id i k ⟨v, t, d⟩ hid h1 h5 hk hb⟩

/-- C3, witness: on account `1`, a description of 11 bytes is rejected before any
store call, and the body `(50000, "d", "compra")` reaches `tx`. -/
theorem postTransacao_validation_witness :
    (((postTransacao dbWs .none "t" "1" (some ⟨5, "c", "abcdefghijk"⟩)).resp
          = .sendStatus 422 ∧
        (postTransacao dbWs .none "t" "1" (some ⟨5, "c", "abcdefghijk"⟩)).ops = []) ↔
      ((5 : Int) = 0 ∨ ("c" ≠ "c" ∧ "c" ≠ "d") ∨ len "abcdefghijk" = 0
        ∨ len "abcdefghijk" > 10)) ∧
    (∃ k : Fin 5, (k.val : Int) = 1 - 1 ∧
      postTransacao dbWs .none "t" "1" (some ⟨50000, "d", "compra"⟩)
        = onShard dbWs k (tx .none "t" (dbWs k) 50000 "d" "compra")) :=
  ⟨(postTransacao_validation dbWs .none "t" "1" 1 5 "c" "abcdefghijk"
      (by decide) (by decide) (by decide)).1,
   (postTransacao_validation dbWs .none "t" "1" 1 50000 "d" "compra"
      (by decide) (by decide) (by decide)).2.2 (by decide)⟩

/-- C7: a record-transaction request that does not end in status 200, whatever
the reason (router error, undecodable or invalid body, insufficient funds, or a
storage error at begin, read, insert, update or commit), leaves all five stores
(limit, balance and log of every account) exactly as they were; and a failure
of the balance update, after the record was inserted in the transaction, never
ends in status 200 and leaves the store, log included, unchanged. -/
theorem postTransacao_failure_atomic (dbs : Fin 5 → DB) (f : TxFault) (now id : String)
    (body : Option reqTransacao) :
    ((postTransacao dbs f now id body).resp.code ≠ 200 →
      (postTransacao dbs f now id body).dbs = dbs) ∧
    (∀ (db : DB) (v : Int) (t d : String),
      (tx .update now db v t d).resp.code ≠ 200 ∧ (tx .update now db v t d).db = db) := by
  constructor
  · intro h
    rcases postTransacao_cases dbs f now id body with ⟨c, hc, _⟩ | ⟨k, b, _, _, _, hk⟩
    · rw [hc]
    · rw [hk] at h ⊢
      simp only [onShard] at h ⊢
      rw [tx_db_of_not_ok f now (dbs k) b.Valor b.Tipo b.Descricao h]
      exact Function.update_eq_self k dbs
  · intro db v t d
    have hne : (tx .update now db v t d).resp.code ≠ 200 := by
      obtain ⟨cs, ts⟩ := db
      cases cs with
      | nil => simp [tx, pegaSaldoAtualizar, Begin, Response.code]
      | cons p rest =>
        obtain ⟨l, b⟩ := p
        simp only [tx, pegaSaldoAtualizar, Begin, List.head?_cons]
        split_ifs <;> simp [Response.code]
    exact ⟨hne, tx_db_of_not_ok .update now db v t d hne⟩

/-- C7, witness: a debit of 100001 on the seeded account 1 (limit 100000) is
rejected and the five stores are the seeded ones. -/
theorem postTransacao_failure_atomic_witness :
    (postTransacao dbWs .none "t" "1" (some ⟨100001, "d", "x"⟩)).resp.code ≠ 200 ∧
    (postTransacao dbWs .none "t" "1" (some ⟨100001, "d", "x"⟩)).dbs = dbWs :=
  ⟨by decide,
   (postTransacao_failure_atomic dbWs .none "t" "1" (some ⟨100001, "d", "x"⟩)).1
     (by decide)⟩

/-! ## Claims about `tx` on one account -/

/-- C4, counterexample: with limit 100000 and balance -1, a debit of
9223372036854775807 would take the balance to -9223372036854775808, far below
-100000, yet `tx` answers 200 and stores that balance: the negation `-saldo` of
the limit check overflows. -/
theorem tx_debit_min_int_accepted :
    (0 : Int) < 9223372036854775807 ∧
    ¬ ((-1 : Int) - 9223372036854775807 ≥ -100000) ∧
    (tx .none "t" ⟨[(100000, -1)], []⟩ 9223372036854775807 "d" "x").resp.code = 200 ∧
    (tx .none "t" ⟨[(100000, -1)], []⟩ 9223372036854775807 "d" "x").db.cs
      = [(100000, -9223372036854775808)] := by
  decide

/-- C4, amended: for every account state `(l, b)` and every debit of a positive
value `v` for which `b - v` is above the smallest `int` (so that neither the
subtraction nor the negation of the limit check overflows), with no storage
error, `tx` succeeds if and only if `b - v ≥ -l`; when it succeeds the balance
becomes `b - v` (in particular exactly `-l` is accepted); when `b - v < -l` (in
particular `-l - 1`) the answer is 422 and the store is unchanged. -/
theorem tx_debit_boundary (now : String) (l b : Int) (log : List TsRow) (v : Int)
    (d : String) (hb : InRange b) (hv : InRange v) (hpos : 0 < v)
    (hno : minInt < b - v) :
    ((tx .none now ⟨[(l, b)], log⟩ v "d" d).resp.code = 200 ↔ b - v ≥ -l) ∧
    (b - v ≥ -l →
      (tx .none now ⟨[(l, b)], log⟩ v "d" d).resp = .saldoJSON l (b - v) ∧
      (tx .none now ⟨[(l, b)], log⟩ v "d" d).db.cs = [(l, b - v)]) ∧
    (b - v < -l →
      (tx .none now ⟨[(l, b)], log⟩ v "d" d).resp = .sendStatus 422 ∧
      (tx .none now ⟨[(l, b)], log⟩ v "d" d).db = ⟨[(l, b)], log⟩) := by
  have hsub : subInt b v = b - v := by
    unfold InRange minInt maxInt at hb hv
    unfold minInt at hno
    unfold subInt wrapInt
    omega
  have hneg : negInt (subInt b v) = -(b - v) := by
    rw [hsub]
    unfold InRange minInt maxInt at hb hv
    unfold minInt at hno
    unfold negInt wrapInt
    omega
  by_cases hc : b - v ≥ -l
  · have hle : negInt (subInt b v) ≤ l := by rw [hneg]; omega
    have htx := tx_debit_ok now l b log v d hle
    rw [htx, hsub]
    refine ⟨⟨fun _ => hc, fun _ => rfl⟩, fun _ => ⟨rfl, rfl⟩, fun h => ?_⟩
    omega
  · have hlt : l < negInt (subInt b v) := by rw [hneg]; omega
    have htx := tx_debit_rejected now l b log v d hlt
    rw [htx]
    refine ⟨⟨fun h => ?_, fun h => absurd h hc⟩, fun h => absurd h hc,
      fun _ => ⟨rfl, rfl⟩⟩
    simp [Response.code] at h

/-- C4, witness: limit 100000, balance -40000, debit 70000 is rejected with 422
and the balance stays -40000. -/
theorem tx_debit_boundary_witness :
    (-40000 : Int) - 70000 < -100000 ∧
    (tx .none "t" ⟨[(100000, -40000)], []⟩ 70000 "d" "x").resp = .sendStatus 422 ∧
    (tx .none "t" ⟨[(100000, -40000)], []⟩ 70000 "d" "x").db
      = ⟨[(100000, -40000)], []⟩ :=
  ⟨by decide,
   (tx_debit_boundary "t" 100000 (-40000) [] 70000 "x" (by decide) (by decide)
      (by decide) (by decide)).2.2 (by decide)⟩

/-- C6, counterexample: with balance 9223372036854775807 a credit of 1 is
accepted with status 200, and the committed balance is -9223372036854775808,
not the sum 9223372036854775808. -/
theorem tx_credit_wraps :
    (tx .none "t" ⟨[(100000, 9223372036854775807)], []⟩ 1 "c" "x").resp.code = 200 ∧
    (tx .none "t" ⟨[(100000, 9223372036854775807)], []⟩ 1 "c" "x").db.cs
      = [(100000, -9223372036854775808)] ∧
    (-9223372036854775808 : Int) ≠ 9223372036854775807 + 1 := by
  decide

/-- C6, amended: for every account state `(l, b, log)` and every request
`(v, t, d)` that `tx` answers with status 200, the committed state has the same
limit, the balance equal to the candidate computed in 64-bit wrap-around
arithmetic (`b + v` for type `"c"`, `b - v` otherwise, and exactly that integer
whenever it fits an `int`), and the log equal to the old log with the one record
`(v, t, d)` appended at the end; the response carries exactly the pair (limit,
candidate). -/
theorem tx_success_postcondition (f : TxFault) (now : String) (l b : Int)
    (log : List TsRow) (v : Int) (t d : String)
    (h : (tx f now ⟨[(l, b)], log⟩ v t d).resp.code = 200) :
    (tx f now ⟨[(l, b)], log⟩ v t d).db
      = ⟨[(l, if t = "c" then wrapInt (b + v) else wrapInt (b - v))],
          log ++ [⟨v, t, d, now⟩]⟩ ∧
    (tx f now ⟨[(l, b)], log⟩ v t d).resp
      = .saldoJSON l (if t = "c" then wrapInt (b + v) else wrapInt (b - v)) ∧
    (t = "c" → InRange (b + v) → wrapInt (b + v) = b + v) ∧
    (t ≠ "c" → InRange (b - v) → wrapInt (b - v) = b - v) := by
  rcases tx_single f now l b log v t d with ⟨hne, _⟩ | ⟨_, hr, hd, _⟩
  · exact absurd h hne
  · refine ⟨?_, ?_, fun _ hr => wrapInt_of_inRange _ hr, fun _ hr => wrapInt_of_inRange _ hr⟩
    · rw [hd]; rfl
    · rw [hr]; rfl

/-- C6, witness: on limit 100000, balance 0 and an empty log, the debit
`(50000, "d", "compra")` commits balance -50000 and a log of that one record, and
answers `(100000, -50000)`. -/
theorem tx_success_postcondition_witness :
    (tx .none "t" ⟨[(100000, 0)], []⟩ 50000 "d" "compra").resp.code = 200 ∧
    (tx .none "t" ⟨[(100000, 0)], []⟩ 50000 "d" "compra").db
      = ⟨[(100000, if "d" = "c" then wrapInt (0 + 50000) else wrapInt (0 - 50000))],
          [] ++ [⟨50000, "d", "compra", "t"⟩]⟩ ∧
    (tx .none "t" ⟨[(100000, 0)], []⟩ 50000 "d" "compra").resp
      = .saldoJSON 100000 (if "d" = "c" then wrapInt (0 + 50000) else wrapInt (0 - 50000)) :=
  ⟨by decide,
   (tx_success_postcondition .none "t" 100000 0 [] 50000 "d" "compra" (by decide)).1,
   (tx_success_postcondition .none "t" 100000 0 [] 50000 "d" "compra" (by decide)).2.1⟩

/-- C9, the code at the failing inputs: on an account with one row, a storage
error while reading the balance, while inserting the record or while updating
the balance is answered with status 422; only a failed begin or commit is
answered with status 500. -/
theorem tx_storage_error_status (now : String) (l b : Int) (log : List TsRow) (v : Int)
    (d : String) :
    (tx .read now ⟨[(l, b)], log⟩ v "c" d).resp = .sendStatus 422 ∧
    (tx .insert now ⟨[(l, b)], log⟩ v "c" d).resp = .sendStatus 422 ∧
    (tx .update now ⟨[(l, b)], log⟩ v "c" d).resp = .sendStatus 422 ∧
    (tx .begin now ⟨[(l, b)], log⟩ v "c" d).resp = .sendStatus 500 ∧
    (tx .commit now ⟨[(l, b)], log⟩ v "c" d).resp = .sendStatus 500 := by
  simp [tx, pegaSaldoAtualizar, Begin]

/-- C10: for an account state with `-l ≤ b` (for any limit, so for `0 ≤ l` too),
and a request that
passes the validation of `postTransacao` with a positive value `v` (type `"c"` or
`"d"`), when no operation of `tx` overflows, the store after `tx` (commit or
rejection, whatever storage error occurs) holds one row `(l, b1)` with
`-l ≤ b1`; a credit without storage error is answered 200 with balance `b + v`;
and the limit check is on the debit branch only: without storage error a credit
of any value on any state, even one that ends below `-l`, is answered 200. -/
theorem tx_preserves_limit (f : TxFault) (now : String) (l b : Int) (log : List TsRow)
    (v : Int) (t d : String)
    (hinv : -l ≤ b) (hpos : 0 < v) (ht : t = "c" ∨ t = "d")
    (hno : NoOverflow b v t) :
    (∃ b1, (tx f now ⟨[(l, b)], log⟩ v t d).db.cs = [(l, b1)] ∧ -l ≤ b1) ∧
    (t = "c" → f = .none →
      (tx f now ⟨[(l, b)], log⟩ v t d).resp = .saldoJSON l (b + v)) ∧
    (∀ (l1 b1 v1 : Int) (log1 : List TsRow),
      (tx .none now ⟨[(l1, b1)], log1⟩ v1 "c" d).resp.code = 200) := by
  refine ⟨?_, ?_, ?_⟩
  · obtain ⟨b1, h1, h2, _⟩ := tx_keeps_limit f now l b log v t d hinv hpos hno
    exact ⟨b1, h1, h2⟩
  · intro htc hf
    subst htc
    subst hf
    unfold NoOverflow at hno
    rw [if_pos rfl] at hno
    rw [tx_credit]
    simp only [addInt, wrapInt_of_inRange _ hno]
  · intro l1 b1 v1 log1
    rw [tx_credit]
    rfl

/-- C10, witness: limit 100000, balance -40000: the debit of 60000 commits
balance -100000 and the debit of 70000 is rejected; both leave `-l ≤ balance`. -/
theorem tx_preserves_limit_witness :
    (∃ b1, (tx .none "t" ⟨[(100000, -40000)], []⟩ 60000 "d" "x").db.cs = [(100000, b1)]
      ∧ -100000 ≤ b1) ∧
    (∃ b1, (tx .none "t" ⟨[(100000, -40000)], []⟩ 70000 "d" "x").db.cs = [(100000, b1)]
      ∧ -100000 ≤ b1) :=
  ⟨(tx_preserves_limit .none "t" 100000 (-40000) [] 60000 "d" "x" (by decide) (by decide)
      (by decide) (by decide)).1,
   (tx_preserves_limit .none "t" 100000 (-40000) [] 70000 "d" "x" (by decide) (by decide)
      (by decide) (by decide)).1⟩

/-! ## Claims about `rx` and about sequences of requests -/

/-- C8: for every account state whose log holds `n` records in commit order,
`rx` without storage error answers 200 with the current `(limit, balance)` and a
transaction list of length `min 10 n` that is the reverse of the last
`min 10 n` entries of the log: entry `j` of the list is the record at position
`n - 1 - j` of the log (newest first), with its stored value, type and
description, and with its stored time as `rows.Scan` delivers it; and `rx`, with
or without storage error, changes no state. -/
theorem rx_statement (scanTs : String → String) (now : String) (l b : Int)
    (log : List TsRow) :
    (rx .none scanTs now ⟨[(l, b)], log⟩).resp.code = 200 ∧
    (rx .none scanTs now ⟨[(l, b)], log⟩).resp
      = .extratoJSON ⟨l, b, now⟩
          (((log.drop (log.length - min 10 log.length)).reverse).map
            fun r => (⟨r.v, r.t, r.d, scanTs r.ts⟩ : Transacao)) ∧
    (((log.drop (log.length - min 10 log.length)).reverse).map
        fun r => (⟨r.v, r.t, r.d, scanTs r.ts⟩ : Transacao)).length
      = min 10 log.length ∧
    (∀ j : Nat,
      (((log.drop (log.length - min 10 log.length)).reverse).map
          fun r => (⟨r.v, r.t, r.d, scanTs r.ts⟩ : Transacao))[j]?
        = if j < min 10 log.length then
            (log[log.length - 1 - j]?).map
              fun r => (⟨r.v, r.t, r.d, scanTs r.ts⟩ : Transacao)
          else none) ∧
    (∀ (f : RxFault) (db : DB), (rx f scanTs now db).db = db) := by
  have hdrop : log.length - min 10 log.length = log.length - 10 := by omega
  have hrx : rx .none scanTs now ⟨[(l, b)], log⟩
      = ⟨.extratoJSON ⟨l, b, now⟩
          ((log.reverse.take 10).map fun r => (⟨r.v, r.t, r.d, scanTs r.ts⟩ : Transacao)),
          ⟨[(l, b)], log⟩, [.selectSaldo, .selectTransacoes]⟩ := by
    have ht : toTransacao scanTs
        = fun r => (⟨r.v, r.t, r.d, scanTs r.ts⟩ : Transacao) := rfl
    simp [rx, lerSaldo, pegaTransacoes, ht]
  have hlen : ((log.drop (log.length - min 10 log.length)).reverse).length
      = min 10 log.length := by
    simp only [List.length_reverse, List.length_drop]
    omega
  refine ⟨?_, ?_, ?_, ?_, ?_⟩
  · rw [hrx]; rfl
  · rw [hrx, hdrop, List.take_reverse]
  · rw [List.length_map, hlen]
  · intro j
    rw [List.getElem?_map]
    by_cases hj : j < min 10 log.length
    · rw [if_pos hj, List.getElem?_reverse (by rw [List.length_drop]; omega),
        List.getElem?_drop, List.length_drop]
      congr 2
      omega
    · rw [if_neg hj, List.getElem?_eq_none (by rw [hlen]; omega)]
      rfl
  · intro f db
    simp only [rx]
    split_ifs <;> rfl

/-- C1, counterexamples: from the seeded stores, (a) the accepted credit of
-100001 on account 1 leaves balance -100001 below -100000; (b) the accepted
debits of 1 and of 9223372036854775807 leave balance -9223372036854775808. -/
theorem limit_invariant_broken :
    ((run dbWs [⟨"1", some ⟨-100001, "c", "x"⟩, .none, "t"⟩] 0).cs
        = [(100000, -100001)] ∧ ¬ ((-100001 : Int) ≥ -100000)) ∧
    ((run dbWs [⟨"1", some ⟨1, "d", "x"⟩, .none, "t"⟩,
        ⟨"1", some ⟨9223372036854775807, "d", "x"⟩, .none, "t"⟩] 0).cs
        = [(100000, -9223372036854775808)] ∧
      ¬ ((-9223372036854775808 : Int) ≥ -100000)) := by
  decide

/-- C1, amended: starting from seeded accounts (balance 0, empty log, limit at
least 0), after every sequence of record-transaction requests whose decoded
values are all positive and whose total, added to the limit, fits a 64-bit `int`
(so that no operation of `tx` overflows), whatever the identifiers, bodies and
storage errors, every account holds one row with its limit and a balance
`b ≥ -limit`. -/
theorem limit_invariant_positive (lims : Fin 5 → Int) (reqs : List Request)
    (hl : ∀ k, 0 ≤ lims k)
    (hpos : ∀ r ∈ reqs, ∀ b, r.body = some b → 0 < b.Valor)
    (hsum : ∀ k, lims k + totalValue reqs ≤ maxInt) (k : Fin 5) :
    ∃ b, (run (seeded lims) reqs k).cs = [(lims k, b)] ∧ -lims k ≤ b := by
  have h := run_keeps_limit lims hl reqs (seeded lims) 0 (le_refl 0) hpos
    (fun k => by have := hsum k; omega)
    (fun k => ⟨0, rfl, by have := hl k; omega, le_refl 0⟩) k
  obtain ⟨b, h1, h2, _⟩ := h
  exact ⟨b, h1, h2⟩

/-- C1, witness: on the stores seeded by `migrate`, after a debit of 50000, a
credit of 10000 and a rejected debit of 70000 on account 1, the balance is at
least -100000. -/
theorem limit_invariant_positive_witness :
    ∃ b, (run (seeded fun k => limiteDe k.val)
        [⟨"1", some ⟨50000, "d", "compra"⟩, .none, "t"⟩,
         ⟨"1", some ⟨10000, "c", "dep"⟩, .none, "t"⟩,
         ⟨"1", some ⟨70000, "d", "x"⟩, .none, "t"⟩] 0).cs
      = [(limiteDe 0, b)] ∧ -limiteDe 0 ≤ b :=
  limit_invariant_positive (fun k => limiteDe k.val)
    [⟨"1", some ⟨50000, "d", "compra"⟩, .none, "t"⟩,
     ⟨"1", some ⟨10000, "c", "dep"⟩, .none, "t"⟩,
     ⟨"1", some ⟨70000, "d", "x"⟩, .none, "t"⟩]
    (by decide) (by decide) (by decide) 0

/-- C5, counterexample: from the seeded stores, two accepted credits of
9223372036854775807 on account 1 leave balance -2, while the signed values of
the two log records sum to 18446744073709551614. -/
theorem conservation_broken :
    (run dbWs [⟨"1", some ⟨9223372036854775807, "c", "x"⟩, .none, "t"⟩,
        ⟨"1", some ⟨9223372036854775807, "c", "x"⟩, .none, "t"⟩] 0).cs
      = [(100000, -2)] ∧
    logSum (run dbWs [⟨"1", some ⟨9223372036854775807, "c", "x"⟩, .none, "t"⟩,
        ⟨"1", some ⟨9223372036854775807, "c", "x"⟩, .none, "t"⟩] 0).ts
      = 18446744073709551614 ∧
    (-2 : Int) ≠ 18446744073709551614 := by
  decide

/-- C5, amended: starting from seeded accounts (balance 0, empty log), after
every sequence of record-transaction requests, every account holds one row with
its limit and a balance equal to the sum of the signed values of its log (`+v`
for type `"c"`, `-v` for type `"d"`, in commit order) reduced to the 64-bit `int`
by wrap-around; the balance equals the sum itself whenever the sum fits an
`int`. -/
theorem conservation_wrapped (lims : Fin 5 → Int) (reqs : List Request) (k : Fin 5) :
    ∃ b, (run (seeded lims) reqs k).cs = [(lims k, b)] ∧
      b = wrapInt (logSum (run (seeded lims) reqs k).ts) ∧
      (InRange (logSum (run (seeded lims) reqs k).ts) →
        b = logSum (run (seeded lims) reqs k).ts) := by
  obtain ⟨b, h1, h2⟩ := run_keeps_sum lims reqs (seeded lims)
    (fun k => ⟨0, rfl, by show (0 : Int) = wrapInt (logSum []); decide⟩) k
  refine ⟨b, h1, h2, fun hr => ?_⟩
  rw [h2]
  exact wrapInt_of_inRange _ hr

/-- C5, witness: after a debit of 50000, a credit of 10000 and a rejected debit
of 70000 on account 1, the log sums to -40000, which fits an `int`, and the
balance equals it. -/
theorem conservation_wrapped_witness :
    ∃ b, (run (seeded fun k => limiteDe k.val)
        [⟨"1", some ⟨50000, "d", "compra"⟩, .none, "t"⟩,
         ⟨"1", some ⟨10000, "c", "dep"⟩, .none, "t"⟩,
         ⟨"1", some ⟨70000, "d", "x"⟩, .none, "t"⟩] 0).cs = [(limiteDe 0, b)] ∧
      b = logSum (run (seeded fun k => limiteDe k.val)
        [⟨"1", some ⟨50000, "d", "compra"⟩, .none, "t"⟩,
         ⟨"1", some ⟨10000, "c", "dep"⟩, .none, "t"⟩,
         ⟨"1", some ⟨70000, "d", "x"⟩, .none, "t"⟩] 0).ts := by
  obtain ⟨b, h1, _, h3⟩ := conservation_wrapped (fun k => limiteDe k.val)
    [⟨"1", some ⟨50000, "d", "compra"⟩, .none, "t"⟩,
     ⟨"1", some ⟨10000, "c", "dep"⟩, .none, "t"⟩,
     ⟨"1", some ⟨70000, "d", "x"⟩, .none, "t"⟩] 0
  exact ⟨b, h1, h3 (by decide)⟩

end Rinha
